import Mathlib

/-!
Verification of the vertex-fetch decoding pipeline of
`SpirvShaderTranslator::ProcessVertexFetchInstruction`
(src/xenia/gpu/spirv_shader_translator_fetch.cc) and the descriptor-set
layout of `SpirvShaderTranslator` (src/xenia/gpu/spirv_shader_translator.h).

The SPIR-V code emitted by the translator computes with IEEE-754 binary32
("float32") values; every float instruction emitted by this translation
unit carries the NoContraction decoration, so each operation rounds its
exact result to nearest-even independently.  We model a float32 value as
an integer significand/exponent pair `F32` (value `m * 2 ^ e`), and model
each emitted float operation (and each constant expression the C++
compiler folds at float precision) as exact arithmetic followed by the
round-to-nearest-even function `roundFracE`.  Overflow to infinity and
NaNs never arise on the data paths covered here and are not modelled
(the rounding function simply keeps rounding at the value's own binade
above the binary32 exponent range).
-/

namespace XeniaSpirvFetch

set_option maxRecDepth 100000

/-- Fuel-driven floor of the binary logarithm: `natLog2F fuel n` halves `n`
until it reaches `1` or below, counting the steps; correct whenever
`n < 2 ^ fuel`. -/
def natLog2F : ℕ → ℕ → ℕ
  | 0, _ => 0
  | fuel + 1, n => if n ≤ 1 then 0 else natLog2F fuel (n / 2) + 1

/-- `⌊log₂ n⌋` for `1 ≤ n` (and `0` at `0`), using `n` itself as fuel. -/
def natILog2 (n : ℕ) : ℕ := natLog2F n n

/-- Decides `2 ^ l ≤ (p / q) * 2 ^ k` for natural `p, q ≥ 1` by clearing
the powers of two into whichever side needs them. -/
def pow2LeFrac (l : ℤ) (p q : ℕ) (k : ℤ) : Bool :=
  if k ≤ l then decide (q * 2 ^ (l - k).toNat ≤ p)
  else decide (q ≤ p * 2 ^ (k - l).toNat)

/-- An IEEE-754 binary32 value `m * 2 ^ e`.  Values produced by
`roundFracE` are canonical: `m = 0 ∧ e = 0`, or `e = -149 ∧ |m| < 2 ^ 24`,
or `e > -149 ∧ 2 ^ 23 ≤ |m| < 2 ^ 24`. -/
structure F32 where
  m : ℤ
  e : ℤ
deriving DecidableEq

/-- The exact rational value of a binary32 number. -/
def F32.toRat (x : F32) : ℚ := (x.m : ℚ) * 2 ^ x.e

/-- `⌊log₂ ((p / q) * 2 ^ k)⌋` for `p, q ≥ 1`: the numerator/denominator
length difference, corrected by one exact comparison. -/
def roundExponent (p q : ℕ) (k : ℤ) : ℤ :=
  let l0 : ℤ := (natILog2 p : ℤ) - (natILog2 q : ℤ) + k
  if pow2LeFrac l0 p q k then l0 else l0 - 1

/-- Natural division rounded to the nearest integer, ties to even. -/
def rnDivNearestEven (bigN bigD : ℕ) : ℕ :=
  let quo : ℕ := bigN / bigD
  let rem : ℕ := bigN % bigD
  if 2 * rem < bigD then quo
  else if bigD < 2 * rem then quo + 1
  else if quo % 2 = 0 then quo else quo + 1

/-- Assembles the rounded significand `m0` (at scale `2 ^ (qe - 23)`) and
the sign into a canonical `F32`, renormalizing when rounding overflowed
the significand to `2 ^ 24`. -/
def roundFinish (s qe : ℤ) (m0 : ℕ) : F32 :=
  if m0 = 2 ^ 24 then ⟨s * 2 ^ 23, qe - 22⟩ else ⟨s * m0, qe - 23⟩

/-- Round the rational `(n / d) * 2 ^ k` (with `d > 0`) to the nearest
binary32 value, ties to even: the significand is rounded to 24 bits at the
value's own binade, with the exponent clamped below at the subnormal scale
`2 ^ (-126)`. -/
def roundFracE (n d : ℤ) (k : ℤ) : F32 :=
  if n = 0 then ⟨0, 0⟩
  else
    let s : ℤ := if n < 0 then -1 else 1
    let p : ℕ := n.natAbs
    let q : ℕ := d.natAbs
    let qe : ℤ := max (roundExponent p q k) (-126)
    let sh : ℤ := k + 23 - qe
    roundFinish s qe (rnDivNearestEven (p * 2 ^ sh.toNat) (q * 2 ^ (-sh).toNat))

/-- A float32 literal or an integer converted to float32
(`OpConvertSToF` / `OpConvertUToF`, or a C++ float literal). -/
def f32ofInt (n : ℤ) : F32 := roundFracE n 1 0

/-- Float32 multiplication (`OpFMul` / `OpVectorTimesScalar`
componentwise, NoContraction). -/
def F32.fmul (a b : F32) : F32 := roundFracE (a.m * b.m) 1 (a.e + b.e)

/-- Float32 addition (`OpFAdd`, NoContraction). -/
def F32.fadd (a b : F32) : F32 :=
  let e0 := min a.e b.e
  roundFracE (a.m * 2 ^ (a.e - e0).toNat + b.m * 2 ^ (b.e - e0).toNat) 1 e0

/-- Float32 division (only used for C++ constant expressions such as
`1.0f / packed_scale_inv`; the translator emits no division). -/
def F32.fdiv (a b : F32) : F32 :=
  if b.m < 0 then roundFracE (-a.m) (-b.m) (a.e - b.e)
  else roundFracE a.m b.m (a.e - b.e)

/-- Exact comparison `a ≤ b` of two binary32 values, as the integers
obtained by bringing both significands to the smaller exponent. -/
def F32.ble (a b : F32) : Bool :=
  let e0 := min a.e b.e
  decide (a.m * 2 ^ (a.e - e0).toNat ≤ b.m * 2 ^ (b.e - e0).toNat)

/-- GLSL.std.450 `FMax` on values known not to be NaN. -/
def F32.fmax (a b : F32) : F32 := if F32.ble a b then b else a

/-- Floor of a binary32 value as an integer (GLSL.std.450 `Floor`
followed by `OpConvertFToS`; the floor of a float32 value is always
exactly representable, so the two emitted instructions together produce
exactly this integer). -/
def F32.floorToInt (x : F32) : ℤ :=
  if 0 ≤ x.e then x.m * 2 ^ x.e.toNat else Int.fdiv x.m (2 ^ (-x.e).toNat)

/-- The float32 literal `0.5f`. -/
def f32half : F32 := roundFracE 1 2 0

/-- The float32 constant zero (`const_float_vectors_0_` entries). -/
def f32zero : F32 := ⟨0, 0⟩

/-! ## Data model: formats and fetch attributes -/

/-- Subset of `xenos::VertexFormat` handled by the switch in
`ProcessVertexFetchInstruction` (an unhandled format asserts in the
source). -/
inductive VertexFormat
  | k_8_8_8_8
  | k_2_10_10_10
  | k_10_11_11
  | k_11_11_10
  | k_16_16
  | k_16_16_16_16
  | k_16_16_FLOAT
  | k_16_16_16_16_FLOAT
  | k_32
  | k_32_32
  | k_32_32_32_32
  | k_32_FLOAT
  | k_32_32_FLOAT
  | k_32_32_32_FLOAT
  | k_32_32_32_32_FLOAT
deriving DecidableEq, Fintype

/-- `xenos::SignedRepeatingFractionMode`. -/
inductive SignedRepeatingFractionMode
  | kZeroClampMinusOne
  | kNoZero
deriving DecidableEq, Fintype

/-- The attributes of a `ParsedVertexFetchInstruction` consumed by the
decode pipeline (`instr.attributes`). -/
structure FetchAttributes where
  data_format : VertexFormat
  is_signed : Bool
  is_integer : Bool
  signed_rf_mode : SignedRepeatingFractionMode
  stride : ℕ
  offset : ℤ
  is_index_rounded : Bool
  exp_adjust : ℤ
deriving DecidableEq

/-- Per-format packed bit-field tables, transcribed from the
`packed_widths` / `packed_offsets` / `packed_words` assignments in the
switch (lines 170-212); entries of components beyond the format stay at
the zero-initialized defaults, as in the source arrays. -/
structure PackedLayout where
  widths : List ℕ
  offsets : List ℕ
  words : List ℕ
deriving DecidableEq

/-- Which formats take the `format_is_packed = true` path, and their
bit-field tables. -/
def packedLayout : VertexFormat → Option PackedLayout
  | .k_8_8_8_8 => some ⟨[8, 8, 8, 8], [0, 8, 16, 24], [0, 0, 0, 0]⟩
  | .k_2_10_10_10 => some ⟨[10, 10, 10, 2], [0, 10, 20, 30], [0, 0, 0, 0]⟩
  | .k_10_11_11 => some ⟨[11, 11, 10, 0], [0, 11, 22, 0], [0, 0, 0, 0]⟩
  | .k_11_11_10 => some ⟨[10, 11, 11, 0], [0, 10, 21, 0], [0, 0, 0, 0]⟩
  | .k_16_16 => some ⟨[16, 16, 0, 0], [0, 16, 0, 0], [0, 0, 0, 0]⟩
  | .k_16_16_16_16 => some ⟨[16, 16, 16, 16], [0, 16, 0, 16], [0, 0, 1, 1]⟩
  | _ => none

/-- Modelled from the spec: `xenos::GetVertexFormatComponentCount` (the
declaration lives in xenos.h, which is not part of the sources here) -
the number of components native to each wire format. -/
def getVertexFormatComponentCount : VertexFormat → ℕ
  | .k_8_8_8_8 => 4
  | .k_2_10_10_10 => 4
  | .k_10_11_11 => 3
  | .k_11_11_10 => 3
  | .k_16_16 => 2
  | .k_16_16_16_16 => 4
  | .k_16_16_FLOAT => 2
  | .k_16_16_16_16_FLOAT => 4
  | .k_32 => 1
  | .k_32_32 => 2
  | .k_32_32_32_32 => 4
  | .k_32_FLOAT => 1
  | .k_32_32_FLOAT => 2
  | .k_32_32_32_FLOAT => 3
  | .k_32_32_32_32_FLOAT => 4

/-- Modelled from the spec: the raw storage word of the element that
holds native component `i` - packed formats read it from the
`packed_words` table, 16-bit-float formats pack two components per word,
and the 32-bit formats use one word per component. -/
def vertexFormatComponentWord (f : VertexFormat) (i : ℕ) : ℕ :=
  match packedLayout f with
  | some L => L.words.getD i 0
  | none =>
    match f with
    | .k_16_16_FLOAT | .k_16_16_16_16_FLOAT => i / 2
    | _ => i

/-- Modelled from the spec: `xenos::GetVertexFormatNeededWords` (declared
in xenos.h, not part of the sources here) - the minimal mask of raw
storage words that must be loaded to satisfy the requested components
under the declared wire format: the union, over requested components that
exist in the format, of the word holding that component. -/
def getVertexFormatNeededWords (f : VertexFormat) (used : ℕ) : ℕ :=
  (List.range 4).foldl
    (fun acc i =>
      if used.testBit i ∧ i < getVertexFormatComponentCount f then
        acc ||| (1 <<< vertexFormatComponentWord f i)
      else acc)
    0

/-- Ascending list of the (at most four) component indices selected by a
mask - the order in which the source loops `for (uint32_t i = 0; i < 4; ++i)`. -/
def maskIndices (mask : ℕ) : List ℕ := (List.range 4).filter mask.testBit

/-- Number of components selected by a 4-bit mask (`xe::bit_count`). -/
def maskCount (mask : ℕ) : ℕ := (maskIndices mask).length

/-! ## Decode semantics (value level) -/

/-- `OpBitFieldUExtract` of `wid` bits at `off` from a 32-bit word. -/
def extractUnsigned (w off wid : ℕ) : ℕ := (w >>> off) &&& (2 ^ wid - 1)

/-- `OpBitFieldSExtract`: the same bit field, sign-extended. -/
def extractSigned (w off wid : ℕ) : ℤ :=
  let u := extractUnsigned w off wid
  if 2 ^ (wid - 1) ≤ u then (u : ℤ) - 2 ^ wid else (u : ℤ)

/-- The extracted field of native component `i`, as the integer the
`OpConvert[SU]ToF` sees. -/
def packedFieldValue (L : PackedLayout) (signed : Bool) (words : ℕ → ℕ)
    (i : ℕ) : ℤ :=
  if signed then
    extractSigned (words (L.words.getD i 0)) (L.offsets.getD i 0) (L.widths.getD i 0)
  else
    (extractUnsigned (words (L.words.getD i 0)) (L.offsets.getD i 0) (L.widths.getD i 0) : ℤ)

/-- `packed_scale_inv` for one component (lines 405-414): the largest
field integer as a float, plus `0.5f` in the no-zero repeating-fraction
mode; float conversion and addition are exact at these magnitudes. -/
def packedScaleInv (signed : Bool) (rf : SignedRepeatingFractionMode) (wid : ℕ) : F32 :=
  if signed then
    let base := f32ofInt ((2 ^ (wid - 1) - 1 : ℕ) : ℤ)
    if rf = .kNoZero then base.fadd f32half else base
  else f32ofInt ((2 ^ wid - 1 : ℕ) : ℤ)

/-- `packed_scales[i] = 1.0f / packed_scale_inv` (line 415), a float32
division folded by the C++ compiler. -/
def packedScale (signed : Bool) (rf : SignedRepeatingFractionMode) (wid : ℕ) : F32 :=
  (f32ofInt 1).fdiv (packedScaleInv signed rf wid)

/-- Decode of one packed component after extraction (lines 391-482):
convert to float, and unless the integer flag is set multiply by the
component's scale, then clamp to -1 (zero-clamp-minus-one) or add the
`0.5f * packed_scales[i]` bias (no-zero). -/
def decodePackedComponent (signed isInt : Bool) (rf : SignedRepeatingFractionMode)
    (wid : ℕ) (field : ℤ) : F32 :=
  let f := f32ofInt field
  if isInt then f
  else
    let v := f.fmul (packedScale signed rf wid)
    if signed then
      match rf with
      | .kZeroClampMinusOne => v.fmax (f32ofInt (-1))
      | .kNoZero => v.fadd (f32half.fmul (packedScale signed rf wid))
    else v

/-- `1.0f / 2147483647.0f` (line 285). -/
def constScale32Clamp : F32 := (f32ofInt 1).fdiv (f32ofInt 2147483647)

/-- The float literal `2147483647.5f`. -/
def lit2147483647p5 : F32 := roundFracE 4294967295 2 0

/-- `1.0f / 2147483647.5f` (line 293). -/
def constScale32NoZero : F32 := (f32ofInt 1).fdiv lit2147483647p5

/-- `0.5f / 2147483647.5f` (line 296). -/
def constBias32NoZero : F32 := F32.fdiv f32half lit2147483647p5

/-- `1.0f / 4294967295.0f` (line 316). -/
def constScale32Unsigned : F32 := (f32ofInt 1).fdiv (f32ofInt 4294967295)

/-- Decode of one word of a `k_32` / `k_32_32` / `k_32_32_32_32` fetch
(lines 265-320): bitcast to (u)int, convert to float, and unless the
integer flag is set normalize per the repeating-fraction mode. -/
def decode32Component (signed isInt : Bool) (rf : SignedRepeatingFractionMode)
    (w : ℕ) : F32 :=
  let n : ℤ := if signed then (if 2 ^ 31 ≤ w % 2 ^ 32 then ((w % 2 ^ 32 : ℕ) : ℤ) - 2 ^ 32 else ((w % 2 ^ 32 : ℕ) : ℤ)) else ((w % 2 ^ 32 : ℕ) : ℤ)
  let f := f32ofInt n
  if isInt then f
  else if signed then
    match rf with
    | .kZeroClampMinusOne => f.fmul constScale32Clamp
    | .kNoZero => (f.fmul constScale32NoZero).fadd constBias32NoZero
  else f.fmul constScale32Unsigned

/-- `OpBitcast` of a raw 32-bit word to float (the `k_32_FLOAT` family,
lines 322-329).  Infinities and NaNs (exponent field 255) have no rational
value; they are mapped to zero here, and no claim depends on them. -/
def f32FromBits (w : ℕ) : F32 :=
  let b := w % 2 ^ 32
  let sgn : ℤ := if 2 ^ 31 ≤ b then -1 else 1
  let ex : ℕ := (b >>> 23) &&& 255
  let man : ℕ := b &&& (2 ^ 23 - 1)
  if ex = 0 then (if man = 0 then ⟨0, 0⟩ else ⟨sgn * (man : ℤ), -149⟩)
  else if ex = 255 then ⟨0, 0⟩
  else ⟨sgn * ((man : ℤ) + 2 ^ 23), (ex : ℤ) - 127 - 23⟩

/-- One lane of GLSL.std.450 `UnpackHalf2x16` (lines 214-263): a binary16
value widened to float32 (exact).  Half infinities and NaNs (exponent
field 31) are mapped to zero here - the source itself notes (FIXME at
line 216) that its NaN behavior differs from the original hardware - and
no claim depends on them. -/
def f32FromHalfBits (h : ℕ) : F32 :=
  let b := h % 2 ^ 16
  let sgn : ℤ := if 2 ^ 15 ≤ b then -1 else 1
  let ex : ℕ := (b >>> 10) &&& 31
  let man : ℕ := b &&& (2 ^ 10 - 1)
  if ex = 0 then roundFracE (sgn * (man : ℤ)) 1 (-24)
  else if ex = 31 then ⟨0, 0⟩
  else roundFracE (sgn * ((man : ℤ) + 2 ^ 10)) 1 ((ex : ℤ) - 15 - 10)

/-- The decoded value of native component `i` for the instruction's
format, before the exponent bias, from the raw (endian-corrected)
storage words. -/
def nativeComponentValue (attrs : FetchAttributes) (words : ℕ → ℕ) (i : ℕ) : F32 :=
  match packedLayout attrs.data_format with
  | some L =>
    decodePackedComponent attrs.is_signed attrs.is_integer attrs.signed_rf_mode
      (L.widths.getD i 0) (packedFieldValue L attrs.is_signed words i)
  | none =>
    match attrs.data_format with
    | .k_16_16_FLOAT | .k_16_16_16_16_FLOAT =>
      f32FromHalfBits (extractUnsigned (words (i / 2)) (16 * (i % 2)) 16)
    | .k_32 | .k_32_32 | .k_32_32_32_32 =>
      decode32Component attrs.is_signed attrs.is_integer attrs.signed_rf_mode (words i)
    | _ => f32FromBits (words i)

/-- The optional exponent bias (lines 487-493): a float32 multiply by the
exact power of two `std::ldexp(1.0f, exp_adjust)`. -/
def applyExpBias (attrs : FetchAttributes) (v : F32) : F32 :=
  if attrs.exp_adjust ≠ 0 then v.fmul (roundFracE 1 1 attrs.exp_adjust) else v

/-- The list of float values stored for the requested components, in
requested component order (lines 154-516): the decoded native components
that were requested, with the exponent bias applied, followed by one
exact zero for each requested component missing from the format
(the `const_float_vectors_0_` constant concatenated at lines 495-514).
Empty when no storage word is needed (`StoreResult` with `spv::NoResult`,
lines 30-36). -/
def storedComponents (attrs : FetchAttributes) (used : ℕ) (words : ℕ → ℕ) : List F32 :=
  if getVertexFormatNeededWords attrs.data_format used = 0 then []
  else
    let cc := getVertexFormatComponentCount attrs.data_format
    let fmtMask := used &&& (2 ^ cc - 1)
    let missingMask := (used &&& 15) &&& (15 ^^^ (2 ^ cc - 1))
    ((maskIndices fmtMask).map fun i =>
      applyExpBias attrs (nativeComponentValue attrs words i)) ++
      List.replicate (maskCount missingMask) f32zero

/-! ## Emission model: which SPIR-V instructions the translator emits -/

/-- The conversion instruction the format family uses. -/
inductive ConvertKind
  | signedToFloat
  | unsignedToFloat
  | bitcastFloat
  | unpackHalf
deriving DecidableEq

/-- Shape of one normalization instruction emitted after the conversion:
the multiply is `OpVectorTimesScalar` against one scalar constant, or
`OpFMul` against a per-component composite constant, or a scalar `OpFMul`
when only one component is used; then optionally a GLSL `FMax` against a
broadcast `-1.0` constant or an `OpFAdd` of per-component bias
constants. -/
inductive NormOp
  | mulVTS (c : F32)
  | mulComposite (cs : List F32)
  | mulScalar (c : F32)
  | addConst (cs : List F32)
  | maxConst (cs : List F32)
deriving DecidableEq

/-- Summary of the code `ProcessVertexFetchInstruction` emits for one
instruction: whether the result store passes the `spv::NoResult`
sentinel, whether the fetch-constant buffer is read and an element
address computed, whether the index operand (operand 0) is consumed,
which element words are loaded from shared memory, the conversion kind,
the normalization instructions in order, whether the exponent-bias
multiply is emitted, and how many zero components are concatenated for
requested components missing from the format. -/
structure FetchEmission where
  storesNoResult : Bool
  readsFetchConstants : Bool
  computesAddress : Bool
  usesIndexOperand : Bool
  loadedWordIndices : List ℕ
  convert : Option ConvertKind
  normOps : List NormOp
  appliesExpBias : Bool
  zeroPadCount : ℕ
deriving DecidableEq

/-- The `packed_scales_same` flag (lines 398-404): starts `true` and is
ANDed, for every used component `i`, with
`extracted_widths[i] != extracted_widths[0]` - transcribed exactly as
written in the source. -/
def packedScalesSame (widthsUsed : List ℕ) : Bool :=
  widthsUsed.foldl (fun acc w => acc && decide (w ≠ widthsUsed.headD 0)) true

/-- The normalization instructions of the packed path (lines 396-482). -/
def packedNormOps (signed isInt : Bool) (rf : SignedRepeatingFractionMode)
    (widthsUsed : List ℕ) : List NormOp :=
  if isInt then []
  else
    let count := widthsUsed.length
    let scales := widthsUsed.map (packedScale signed rf)
    let mulOp :=
      if 1 < count then
        if packedScalesSame widthsUsed then NormOp.mulVTS (scales.headD f32zero)
        else NormOp.mulComposite scales
      else NormOp.mulScalar (scales.headD f32zero)
    mulOp ::
      (if signed then
        match rf with
        | .kZeroClampMinusOne => [NormOp.maxConst (List.replicate count (f32ofInt (-1)))]
        | .kNoZero => [NormOp.addConst (scales.map f32half.fmul)]
      else [])

/-- The normalization instructions of the `k_32` integer family
(lines 279-319). -/
def wide32NormOps (signed isInt : Bool) (rf : SignedRepeatingFractionMode)
    (count : ℕ) : List NormOp :=
  if isInt then []
  else if signed then
    match rf with
    | .kZeroClampMinusOne => [NormOp.mulVTS constScale32Clamp]
    | .kNoZero =>
      [NormOp.mulVTS constScale32NoZero,
        NormOp.addConst (List.replicate count constBias32NoZero)]
  else [NormOp.mulVTS constScale32Unsigned]

/-- The bit width of native component `i` of a packed format (0 for
non-packed formats and for table entries beyond the format). -/
def packedWidthAt (f : VertexFormat) (i : ℕ) : ℕ :=
  match packedLayout f with
  | some L => L.widths.getD i 0
  | none => 0

/-- The bit offset of native component `i` of a packed format. -/
def packedOffsetAt (f : VertexFormat) (i : ℕ) : ℕ :=
  match packedLayout f with
  | some L => L.offsets.getD i 0
  | none => 0

/-- The element word holding native component `i` of a packed format. -/
def packedWordAt (f : VertexFormat) (i : ℕ) : ℕ :=
  match packedLayout f with
  | some L => L.words.getD i 0
  | none => 0

/-- The conversion instruction and the normalization instructions of the
format switch (lines 170-333 and 335-482), given the widths of the used
components (packed path) and the used component count. -/
def formatConvertAndNorm (fmt : VertexFormat) (signed isInt : Bool)
    (rf : SignedRepeatingFractionMode) (widthsUsed : List ℕ) (count : ℕ) :
    Option ConvertKind × List NormOp :=
  match packedLayout fmt with
  | some _ =>
    (some (if signed then .signedToFloat else .unsignedToFloat),
      packedNormOps signed isInt rf widthsUsed)
  | none =>
    match fmt with
    | .k_16_16_FLOAT | .k_16_16_16_16_FLOAT => (some .unpackHalf, [])
    | .k_32 | .k_32_32 | .k_32_32_32_32 =>
      (some (if signed then .signedToFloat else .unsignedToFloat),
        wide32NormOps signed isInt rf count)
    | _ => (some .bitcastFloat, [])

/-- The emission summary of `ProcessVertexFetchInstruction` for the given
attributes and requested-component mask, following the source control
flow: the early `StoreResult(instr.result, spv::NoResult)` return when no
word is needed (lines 30-36), otherwise the fetch-constant reads, the
address computation with the index operand consumed exactly when the
stride is nonzero (lines 40-90), the shared-memory word loads (lines
92-130), and the per-family conversion and normalization (lines
154-493). -/
def processVertexFetchEmission (attrs : FetchAttributes) (used : ℕ) : FetchEmission :=
  let needed := getVertexFormatNeededWords attrs.data_format used
  if needed = 0 then ⟨true, false, false, false, [], none, [], false, 0⟩
  else
    let cc := getVertexFormatComponentCount attrs.data_format
    let fmtMask := used &&& (2 ^ cc - 1)
    let count := maskCount fmtMask
    let missingMask := (used &&& 15) &&& (15 ^^^ (2 ^ cc - 1))
    let loaded := maskIndices needed
    let fam := formatConvertAndNorm attrs.data_format attrs.is_signed
      attrs.is_integer attrs.signed_rf_mode
      ((maskIndices fmtMask).map (packedWidthAt attrs.data_format)) count
    ⟨false, true, true, attrs.stride ≠ 0, loaded, fam.1, fam.2,
      attrs.exp_adjust ≠ 0, maskCount missingMask⟩

/-- Whether any emitted normalization instruction is a clamp (`FMax`). -/
def FetchEmission.hasClamp (E : FetchEmission) : Bool :=
  E.normOps.any fun op => match op with | .maxConst _ => true | _ => false

/-! ## Element address computation (lines 40-90) -/

/-- The base dword address: bits 2:31 of the first fetch constant word
(`OpShiftRightLogical` by 2, then `OpBitcast` to int). -/
def fetchBaseAddress (fetchConstantWord0 : ℕ) : ℤ := ((fetchConstantWord0 % 2 ^ 32) >>> 2 : ℕ)

/-- The element dword address (lines 61-90): the base address, plus - only
when the stride attribute is nonzero - the index operand, biased by
`0.5f` (an `OpFAdd`) exactly when `is_index_rounded` is set, floored and
converted to a signed integer, multiplied by the stride when the stride
exceeds one. -/
def elementDwordAddress (fetchConstantWord0 : ℕ) (stride : ℕ) (rounded : Bool)
    (index : F32) : ℤ :=
  let address := fetchBaseAddress fetchConstantWord0
  if stride ≠ 0 then
    let biased := if rounded then index.fadd f32half else index
    let i := biased.floorToInt
    let i := if 1 < stride then i * (stride : ℤ) else i
    address + i
  else address

/-! ## Descriptor sets (spirv_shader_translator.h, lines 27-49) -/

/-- The `SpirvShaderTranslator::DescriptorSet` enumerators, in
declaration order ("In order of update frequency"). -/
inductive DescriptorSet
  | kDescriptorSetFetchConstants
  | kDescriptorSetFloatConstantsVertex
  | kDescriptorSetFloatConstantsPixel
  | kDescriptorSetTexturesPixel
  | kDescriptorSetTexturesVertex
  | kDescriptorSetSystemConstants
  | kDescriptorSetBoolLoopConstants
  | kDescriptorSetSharedMemoryAndEdram
deriving DecidableEq, Fintype

/-- The numeric slot of each enumerator (C++ gives them consecutive
values starting at 0). -/
def DescriptorSet.index : DescriptorSet → ℕ
  | .kDescriptorSetFetchConstants => 0
  | .kDescriptorSetFloatConstantsVertex => 1
  | .kDescriptorSetFloatConstantsPixel => 2
  | .kDescriptorSetTexturesPixel => 3
  | .kDescriptorSetTexturesVertex => 4
  | .kDescriptorSetSystemConstants => 5
  | .kDescriptorSetBoolLoopConstants => 6
  | .kDescriptorSetSharedMemoryAndEdram => 7

/-- `kDescriptorSetCount`, the enumerator following the eight groups. -/
def kDescriptorSetCount : ℕ := 8

/-! ## Correctness of the rounding primitives -/

theorem natLog2F_bounds (fuel : ℕ) : ∀ n : ℕ, 1 ≤ n → n < 2 ^ fuel →
    2 ^ natLog2F fuel n ≤ n ∧ n < 2 ^ (natLog2F fuel n + 1) := by
  induction fuel with
  | zero =>
    intro n h1 h2
    simp only [pow_zero] at h2
    omega
  | succ f ih =>
    intro n h1 h2
    by_cases hn : n ≤ 1
    · have hn1 : n = 1 := le_antisymm hn h1
      subst hn1
      simp [natLog2F]
    · have hrec : natLog2F (f + 1) n = natLog2F f (n / 2) + 1 := by
        simp [natLog2F, hn]
      have h2' : n / 2 < 2 ^ f := by
        have h2'' : n < 2 ^ f * 2 := by
          calc n < 2 ^ (f + 1) := h2
          _ = 2 ^ f * 2 := by ring
        omega
      have h1' : 1 ≤ n / 2 := by omega
      obtain ⟨hl, hr⟩ := ih (n / 2) h1' h2'
      rw [hrec]
      constructor
      · calc 2 ^ (natLog2F f (n / 2) + 1) = 2 ^ natLog2F f (n / 2) * 2 := by ring
        _ ≤ n / 2 * 2 := by omega
        _ ≤ n := by omega
      · calc n < (n / 2 + 1) * 2 := by omega
        _ ≤ 2 ^ (natLog2F f (n / 2) + 1) * 2 := by
            have : n / 2 + 1 ≤ 2 ^ (natLog2F f (n / 2) + 1) := hr
            omega
        _ = 2 ^ (natLog2F f (n / 2) + 1 + 1) := by ring

theorem natILog2_bounds (n : ℕ) (h1 : 1 ≤ n) :
    2 ^ natILog2 n ≤ n ∧ n < 2 ^ (natILog2 n + 1) :=
  natLog2F_bounds n n h1 (Nat.lt_two_pow n)

theorem pow2LeFrac_iff (l : ℤ) (p q : ℕ) (k : ℤ) (hq : 0 < q) :
    pow2LeFrac l p q k = true ↔ (2 : ℚ) ^ l ≤ (p / q : ℚ) * 2 ^ k := by
  have hq0 : (0 : ℚ) < (q : ℚ) := by exact_mod_cast hq
  have h2 : (2 : ℚ) ≠ 0 := by norm_num
  have h2k : (0 : ℚ) < (2 : ℚ) ^ k := zpow_pos (by norm_num) k
  have h2l : (0 : ℚ) < (2 : ℚ) ^ l := zpow_pos (by norm_num) l
  rw [div_mul_eq_mul_div, le_div_iff hq0]
  unfold pow2LeFrac
  by_cases hkl : k ≤ l
  · rw [if_pos hkl]
    simp only [decide_eq_true_eq]
    have hlift : (2 : ℚ) ^ l * q = ((q * 2 ^ (l - k).toNat : ℕ) : ℚ) * 2 ^ k := by
      have hmerge : (2 : ℚ) ^ (l - k) * 2 ^ k = 2 ^ l := by
        rw [← zpow_add₀ h2]
        congr 1
        omega
      push_cast
      rw [← zpow_natCast (2 : ℚ) (l - k).toNat, Int.toNat_of_nonneg (by omega : (0:ℤ) ≤ l - k),
        ← hmerge]
      ring
    rw [hlift, mul_le_mul_right h2k]
    exact ⟨fun h => by exact_mod_cast h, fun h => by exact_mod_cast h⟩
  · rw [if_neg hkl]
    simp only [decide_eq_true_eq]
    have hlift : (p : ℚ) * 2 ^ k = ((p * 2 ^ (k - l).toNat : ℕ) : ℚ) * 2 ^ l := by
      have hmerge : (2 : ℚ) ^ (k - l) * 2 ^ l = 2 ^ k := by
        rw [← zpow_add₀ h2]
        congr 1
        omega
      push_cast
      rw [← zpow_natCast (2 : ℚ) (k - l).toNat, Int.toNat_of_nonneg (by omega : (0:ℤ) ≤ k - l),
        ← hmerge]
      ring
    rw [hlift, mul_comm ((2 : ℚ) ^ l) (q : ℚ), mul_le_mul_right h2l]
    exact ⟨fun h => by exact_mod_cast h, fun h => by exact_mod_cast h⟩


theorem roundExponent_bounds (p q : ℕ) (k : ℤ) (hp : 0 < p) (hq : 0 < q) :
    (2 : ℚ) ^ roundExponent p q k ≤ (p / q : ℚ) * 2 ^ k ∧
      (p / q : ℚ) * 2 ^ k < 2 ^ (roundExponent p q k + 1) := by
  have h2 : (2 : ℚ) ≠ 0 := by norm_num
  have hq0 : (0 : ℚ) < (q : ℚ) := by exact_mod_cast hq
  have hp0 : (0 : ℚ) < (p : ℚ) := by exact_mod_cast hp
  have h2k : (0 : ℚ) < (2 : ℚ) ^ k := zpow_pos (by norm_num) k
  obtain ⟨hp1, hp2⟩ := natILog2_bounds p hp
  obtain ⟨hq1, hq2⟩ := natILog2_bounds q hq
  have hp1q : (2 : ℚ) ^ ((natILog2 p : ℤ)) ≤ (p : ℚ) := by
    rw [show ((natILog2 p : ℤ)) = ((natILog2 p : ℕ) : ℤ) from rfl, zpow_natCast]
    exact_mod_cast hp1
  have hp2q : (p : ℚ) < 2 ^ ((natILog2 p : ℤ) + 1) := by
    rw [show (natILog2 p : ℤ) + 1 = ((natILog2 p + 1 : ℕ) : ℤ) by push_cast; ring, zpow_natCast]
    exact_mod_cast hp2
  have hq1q : (2 : ℚ) ^ ((natILog2 q : ℤ)) ≤ (q : ℚ) := by
    rw [show ((natILog2 q : ℤ)) = ((natILog2 q : ℕ) : ℤ) from rfl, zpow_natCast]
    exact_mod_cast hq1
  have hq2q : (q : ℚ) < 2 ^ ((natILog2 q : ℤ) + 1) := by
    rw [show (natILog2 q : ℤ) + 1 = ((natILog2 q + 1 : ℕ) : ℤ) by push_cast; ring, zpow_natCast]
    exact_mod_cast hq2
  set x : ℚ := (p / q : ℚ) * 2 ^ k with hxdef
  have hxval : x * q = (p : ℚ) * 2 ^ k := by
    rw [hxdef]
    field_simp
  have hxpos : 0 < x := by
    rw [hxdef]
    exact mul_pos (div_pos hp0 hq0) h2k
  set l0 : ℤ := (natILog2 p : ℤ) - (natILog2 q : ℤ) + k with hl0
  -- the strict two-sided bracket from the length difference
  have hlow : (2 : ℚ) ^ (l0 - 1) < x := by
    have step : (2 : ℚ) ^ (l0 - 1) * 2 ^ ((natILog2 q : ℤ) + 1) = 2 ^ (natILog2 p : ℤ) * 2 ^ k := by
      rw [← zpow_add₀ h2, ← zpow_add₀ h2]
      congr 1
      omega
    have h1 : (2 : ℚ) ^ (l0 - 1) * 2 ^ ((natILog2 q : ℤ) + 1) ≤ (p : ℚ) * 2 ^ k := by
      rw [step]
      exact mul_le_mul_of_nonneg_right hp1q (le_of_lt h2k)
    have h3 : (p : ℚ) * 2 ^ k < x * 2 ^ ((natILog2 q : ℤ) + 1) := by
      rw [← hxval]
      exact mul_lt_mul_of_pos_left hq2q hxpos
    have := lt_of_le_of_lt h1 h3
    exact lt_of_mul_lt_mul_right this (le_of_lt (zpow_pos (by norm_num) _))
  have hhigh : x < (2 : ℚ) ^ (l0 + 1) := by
    have step : (2 : ℚ) ^ (l0 + 1) * 2 ^ (natILog2 q : ℤ) = 2 ^ ((natILog2 p : ℤ) + 1) * 2 ^ k := by
      rw [← zpow_add₀ h2, ← zpow_add₀ h2]
      congr 1
      omega
    have h1 : x * 2 ^ (natILog2 q : ℤ) ≤ (p : ℚ) * 2 ^ k := by
      rw [← hxval]
      exact mul_le_mul_of_nonneg_left hq1q (le_of_lt hxpos)
    have h3 : (p : ℚ) * 2 ^ k < 2 ^ (l0 + 1) * 2 ^ (natILog2 q : ℤ) := by
      rw [step]
      exact mul_lt_mul_of_pos_right hp2q h2k
    have := lt_of_le_of_lt h1 h3
    exact lt_of_mul_lt_mul_right this (le_of_lt (zpow_pos (by norm_num) _))
  unfold roundExponent
  by_cases hle : pow2LeFrac l0 p q k
  · rw [if_pos hle]
    exact ⟨(pow2LeFrac_iff l0 p q k hq).mp hle, hhigh⟩
  · rw [if_neg hle]
    constructor
    · have := hlow
      linarith
    · have hnot : ¬ ((2 : ℚ) ^ l0 ≤ x) := fun hcon => hle ((pow2LeFrac_iff l0 p q k hq).mpr hcon)
      push_neg at hnot
      calc x < 2 ^ l0 := hnot
      _ = 2 ^ (l0 - 1 + 1) := by congr 1; omega

theorem rnDivNearestEven_err (bigN bigD : ℕ) (hD : 0 < bigD) :
    |(rnDivNearestEven bigN bigD : ℚ) - (bigN : ℚ) / bigD| ≤ 1 / 2 := by
  have hD0 : (0 : ℚ) < (bigD : ℚ) := by exact_mod_cast hD
  have hdm : bigD * (bigN / bigD) + bigN % bigD = bigN := Nat.div_add_mod bigN bigD
  have hremlt : bigN % bigD < bigD := Nat.mod_lt bigN hD
  have hval : (bigN : ℚ) / bigD = (bigN / bigD : ℕ) + (bigN % bigD : ℕ) / bigD := by
    conv_lhs => rw [← hdm]
    push_cast
    rw [add_div, mul_comm (bigD : ℚ), mul_div_assoc, div_self (ne_of_gt hD0), mul_one]
  have hfrac_nonneg : (0 : ℚ) ≤ ((bigN % bigD : ℕ) : ℚ) / bigD := by positivity
  have hfrac_lt : ((bigN % bigD : ℕ) : ℚ) / bigD < 1 := by
    rw [div_lt_one hD0]
    exact_mod_cast hremlt
  unfold rnDivNearestEven
  by_cases h1 : 2 * (bigN % bigD) < bigD
  · rw [if_pos h1]
    have hle : ((bigN % bigD : ℕ) : ℚ) / bigD ≤ 1 / 2 := by
      rw [div_le_div_iff hD0 (by norm_num : (0:ℚ) < 2)]
      have : (2 : ℚ) * (bigN % bigD : ℕ) ≤ bigD := by exact_mod_cast le_of_lt h1
      linarith
    rw [hval, abs_sub_comm]
    rw [show ((bigN / bigD : ℕ) : ℚ) + ((bigN % bigD : ℕ) : ℚ) / bigD - ((bigN / bigD : ℕ) : ℚ)
        = ((bigN % bigD : ℕ) : ℚ) / bigD by ring]
    rw [abs_of_nonneg hfrac_nonneg]
    exact hle
  · rw [if_neg h1]
    have hge : 1 / 2 ≤ ((bigN % bigD : ℕ) : ℚ) / bigD := by
      rw [div_le_div_iff (by norm_num : (0:ℚ) < 2) hD0]
      have : (bigD : ℚ) ≤ 2 * (bigN % bigD : ℕ) := by exact_mod_cast Nat.le_of_not_lt h1
      linarith
    have hgoal : |(((bigN / bigD : ℕ) : ℚ) + 1) - (bigN : ℚ) / bigD| ≤ 1 / 2 := by
      rw [hval, show ((bigN / bigD : ℕ) : ℚ) + 1 - (((bigN / bigD : ℕ) : ℚ) + ((bigN % bigD : ℕ) : ℚ) / bigD)
          = 1 - ((bigN % bigD : ℕ) : ℚ) / bigD by ring]
      rw [abs_of_nonneg (by linarith)]
      linarith
    by_cases h2 : bigD < 2 * (bigN % bigD)
    · rw [if_pos h2]
      push_cast
      push_cast at hgoal
      exact hgoal
    · rw [if_neg h2]
      by_cases h3 : bigN / bigD % 2 = 0
      · rw [if_pos h3]
        have heq : ((bigN % bigD : ℕ) : ℚ) / bigD = 1 / 2 := by
          have h2rem : 2 * (bigN % bigD) = bigD := by omega
          have hrpos : (0 : ℚ) < ((bigN % bigD : ℕ) : ℚ) := by
            exact_mod_cast (by omega : 0 < bigN % bigD)
          have hDrw : (bigD : ℚ) = 2 * ((bigN % bigD : ℕ) : ℚ) := by
            exact_mod_cast h2rem.symm
          rw [hDrw, div_eq_div_iff (by positivity) (by norm_num : (2:ℚ) ≠ 0)]
          ring
        rw [hval, heq]
        rw [show ((bigN / bigD : ℕ) : ℚ) - (((bigN / bigD : ℕ) : ℚ) + 1 / 2) = -(1/2) by ring]
        rw [abs_neg, abs_of_nonneg (by norm_num)]
      · rw [if_neg h3]
        push_cast
        push_cast at hgoal
        exact hgoal

theorem scaledFrac_eq (p q : ℕ) (sh : ℤ) :
    ((p * 2 ^ sh.toNat : ℕ) : ℚ) / ((q * 2 ^ (-sh).toNat : ℕ) : ℚ) = (p / q : ℚ) * 2 ^ sh := by
  by_cases hsh : 0 ≤ sh
  · have hneg : (-sh).toNat = 0 := by omega
    rw [hneg]
    push_cast
    rw [← zpow_natCast (2 : ℚ) sh.toNat, Int.toNat_of_nonneg hsh]
    ring
  · have hpos : sh.toNat = 0 := by omega
    rw [hpos]
    have h2n : ((2 : ℚ) ^ (-sh).toNat : ℚ) ≠ 0 := by positivity
    push_cast
    rw [show (2 : ℚ) ^ sh = ((2 : ℚ) ^ (-sh).toNat)⁻¹ by
      rw [← zpow_natCast (2 : ℚ) (-sh).toNat, Int.toNat_of_nonneg (by omega : (0:ℤ) ≤ -sh),
        ← zpow_neg]
      congr 1
      omega]
    field_simp

theorem roundFinish_toRat (s qe : ℤ) (m0 : ℕ) :
    (roundFinish s qe m0).toRat = (s : ℚ) * m0 * 2 ^ (qe - 23) := by
  have h2 : (2 : ℚ) ≠ 0 := by norm_num
  unfold roundFinish F32.toRat
  by_cases h : m0 = 2 ^ 24
  · rw [if_pos h, h]
    push_cast
    rw [show (2 : ℚ) ^ (qe - 22) = 2 ^ (qe - 23) * 2 by
      rw [show qe - 22 = qe - 23 + 1 by omega, zpow_add₀ h2, zpow_one]]
    ring
  · rw [if_neg h]
    push_cast
    ring

/-- Relative-error bound of the binary32 rounding: away from the
subnormal range the rounded value differs from the exact rational by at
most half an ulp, i.e. a relative error of `2 ^ (-24)`. -/
theorem roundFracE_err (n d k : ℤ) (hd : 0 < d)
    (hx : (2 : ℚ) ^ (-126 : ℤ) ≤ |(n : ℚ) / d * 2 ^ k|) :
    |(roundFracE n d k).toRat - (n : ℚ) / d * 2 ^ k| ≤
      2 ^ (-24 : ℤ) * |(n : ℚ) / d * 2 ^ k| := by
  have h2 : (2 : ℚ) ≠ 0 := by norm_num
  set x : ℚ := (n : ℚ) / d * 2 ^ k with hxdef
  have hn0 : n ≠ 0 := by
    rintro rfl
    have hz : x = 0 := by rw [hxdef]; simp
    rw [hz, abs_zero] at hx
    have : (0 : ℚ) < 2 ^ (-126 : ℤ) := zpow_pos (by norm_num) _
    linarith
  have hp : 0 < n.natAbs := Int.natAbs_pos.mpr hn0
  have hq : 0 < d.natAbs := Int.natAbs_pos.mpr (by omega)
  have hq0 : (0 : ℚ) < (d.natAbs : ℚ) := by exact_mod_cast hq
  have hcastn : ((n.natAbs : ℕ) : ℚ) = |(n : ℚ)| := by
    rw [Int.cast_natAbs, Int.cast_abs]
  have hcastd : ((d.natAbs : ℕ) : ℚ) = |(d : ℚ)| := by
    rw [Int.cast_natAbs, Int.cast_abs]
  have habs : ((n.natAbs : ℚ) / (d.natAbs : ℚ)) * 2 ^ k = |x| := by
    rw [hxdef, abs_mul, abs_div, abs_of_pos (zpow_pos (by norm_num : (0:ℚ) < 2) k), hcastn, hcastd]
  have hxpos : 0 < |x| := lt_of_lt_of_le (zpow_pos (by norm_num) _) hx
  obtain ⟨he1, he2⟩ := roundExponent_bounds n.natAbs d.natAbs k hp hq
  rw [habs] at he1 he2
  have hemin : (-126 : ℤ) ≤ roundExponent n.natAbs d.natAbs k := by
    by_contra hcon
    push_neg at hcon
    have hlt : |x| < 2 ^ (-126 : ℤ) :=
      lt_of_lt_of_le he2 (zpow_le_zpow_right₀ (by norm_num) (by omega))
    linarith
  have hunf : roundFracE n d k =
      roundFinish (if n < 0 then (-1 : ℤ) else 1)
        (roundExponent n.natAbs d.natAbs k)
        (rnDivNearestEven
          (n.natAbs * 2 ^ (k + 23 - roundExponent n.natAbs d.natAbs k).toNat)
          (d.natAbs * 2 ^ (-(k + 23 - roundExponent n.natAbs d.natAbs k)).toNat)) := by
    unfold roundFracE
    rw [if_neg hn0]
    show roundFinish (if n < 0 then (-1 : ℤ) else 1)
        (max (roundExponent n.natAbs d.natAbs k) (-126))
        (rnDivNearestEven
          (n.natAbs * 2 ^ (k + 23 - max (roundExponent n.natAbs d.natAbs k) (-126)).toNat)
          (d.natAbs * 2 ^ (-(k + 23 - max (roundExponent n.natAbs d.natAbs k) (-126))).toNat)) = _
    rw [max_eq_left hemin]
  set e : ℤ := roundExponent n.natAbs d.natAbs k with hedef
  set bigN : ℕ := n.natAbs * 2 ^ (k + 23 - e).toNat with hNdef
  set bigD : ℕ := d.natAbs * 2 ^ (-(k + 23 - e)).toNat with hDdef
  have hDpos : 0 < bigD := by
    rw [hDdef]
    exact Nat.mul_pos hq (Nat.pos_pow_of_pos _ (by norm_num))
  set M : ℕ := rnDivNearestEven bigN bigD with hMdef
  have hstep := rnDivNearestEven_err bigN bigD hDpos
  have hNv : (bigN : ℚ) / bigD = |x| * 2 ^ (23 - e) := by
    rw [hNdef, hDdef, scaledFrac_eq, ← habs]
    rw [show (2 : ℚ) ^ (k + 23 - e) = 2 ^ k * 2 ^ (23 - e) by
      rw [← zpow_add₀ h2]
      congr 1
      omega]
    ring
  rw [hNv, ← hMdef] at hstep
  have hsQ : |((if n < 0 then (-1 : ℤ) else 1 : ℤ) : ℚ)| = 1 := by
    by_cases hneg : n < 0 <;> simp [hneg]
  have hxsign : x = ((if n < 0 then (-1 : ℤ) else 1 : ℤ) : ℚ) * |x| := by
    by_cases hneg : n < 0
    · have hxneg : x < 0 := by
        rw [hxdef]
        apply mul_neg_of_neg_of_pos _ (zpow_pos (by norm_num) k)
        apply div_neg_of_neg_of_pos _ (by exact_mod_cast hd)
        exact_mod_cast hneg
      rw [if_pos hneg, abs_of_neg hxneg]
      push_cast
      ring
    · have hnpos : 0 < n := by omega
      have hxp : 0 < x := by
        rw [hxdef]
        apply mul_pos _ (zpow_pos (by norm_num) k)
        apply div_pos _ (by exact_mod_cast hd)
        exact_mod_cast hnpos
      rw [if_neg hneg, abs_of_pos hxp]
      push_cast
      ring
  rw [hunf, roundFinish_toRat]
  have h23 : (2 : ℚ) ^ (e - 23) * 2 ^ (23 - e) = 1 := by
    rw [← zpow_add₀ h2, show e - 23 + (23 - e) = 0 by omega, zpow_zero]
  have hfac : ((if n < 0 then (-1 : ℤ) else 1 : ℤ) : ℚ) * M * 2 ^ (e - 23) - x =
      ((if n < 0 then (-1 : ℤ) else 1 : ℤ) : ℚ) *
        (2 ^ (e - 23) * ((M : ℚ) - |x| * 2 ^ (23 - e))) := by
    conv_lhs => rw [hxsign]
    have hexp : ((if n < 0 then (-1 : ℤ) else 1 : ℤ) : ℚ) * M * 2 ^ (e - 23) -
        ((if n < 0 then (-1 : ℤ) else 1 : ℤ) : ℚ) * |x| =
        ((if n < 0 then (-1 : ℤ) else 1 : ℤ) : ℚ) * (M * 2 ^ (e - 23) - |x|) := by
      ring
    rw [hexp]
    congr 1
    linear_combination |x| * h23
  rw [hfac, abs_mul, hsQ, one_mul, abs_mul,
    abs_of_pos (zpow_pos (by norm_num : (0:ℚ) < 2) (e - 23))]
  have hbound : (2 : ℚ) ^ (e - 23) * |(M : ℚ) - |x| * 2 ^ (23 - e)| ≤
      2 ^ (e - 23) * (1 / 2) := by
    apply mul_le_mul_of_nonneg_left hstep (le_of_lt (zpow_pos (by norm_num) _))
  calc (2 : ℚ) ^ (e - 23) * |(M : ℚ) - |x| * 2 ^ (23 - e)| ≤ 2 ^ (e - 23) * (1 / 2) := hbound
  _ = 2 ^ (e - 24) := by
      rw [show (2 : ℚ) ^ (e - 23) = 2 ^ (e - 24) * 2 by
        rw [show e - 23 = e - 24 + 1 by omega, zpow_add₀ h2, zpow_one]]
      ring
  _ = 2 ^ (-24 : ℤ) * 2 ^ e := by
      rw [← zpow_add₀ h2]
      congr 1
      omega
  _ ≤ 2 ^ (-24 : ℤ) * |x| := by
      apply mul_le_mul_of_nonneg_left he1 (le_of_lt (zpow_pos (by norm_num) _))

/-! ## Semantic error bounds for the modelled float operations -/

theorem F32.fmul_toRat_err (a b : F32)
    (h : (2 : ℚ) ^ (-126 : ℤ) ≤ |a.toRat * b.toRat|) :
    |(a.fmul b).toRat - a.toRat * b.toRat| ≤ 2 ^ (-24 : ℤ) * |a.toRat * b.toRat| := by
  have hval : ((a.m * b.m : ℤ) : ℚ) / ((1 : ℤ) : ℚ) * 2 ^ (a.e + b.e) =
      a.toRat * b.toRat := by
    unfold F32.toRat
    push_cast
    rw [zpow_add₀ (by norm_num : (2:ℚ) ≠ 0)]
    ring
  have herr := roundFracE_err (a.m * b.m) 1 (a.e + b.e) (by norm_num)
    (by rw [show ((1:ℤ):ℚ) = ((1:ℤ):ℚ) from rfl, hval]; exact h)
  rw [hval] at herr
  unfold F32.fmul
  exact herr

theorem F32.fadd_toRat_err (a b : F32)
    (h : (2 : ℚ) ^ (-126 : ℤ) ≤ |a.toRat + b.toRat|) :
    |(a.fadd b).toRat - (a.toRat + b.toRat)| ≤ 2 ^ (-24 : ℤ) * |a.toRat + b.toRat| := by
  have hae : min a.e b.e ≤ a.e := min_le_left _ _
  have hbe : min a.e b.e ≤ b.e := min_le_right _ _
  have h2 : (2 : ℚ) ≠ 0 := by norm_num
  have hpa : ((2 : ℚ)) ^ ((a.e - min a.e b.e).toNat) * 2 ^ (min a.e b.e) = 2 ^ a.e := by
    rw [← zpow_natCast (2 : ℚ) _, Int.toNat_of_nonneg (by omega), ← zpow_add₀ h2]
    congr 1
    omega
  have hpb : ((2 : ℚ)) ^ ((b.e - min a.e b.e).toNat) * 2 ^ (min a.e b.e) = 2 ^ b.e := by
    rw [← zpow_natCast (2 : ℚ) _, Int.toNat_of_nonneg (by omega), ← zpow_add₀ h2]
    congr 1
    omega
  have hval : ((a.m * 2 ^ (a.e - min a.e b.e).toNat +
        b.m * 2 ^ (b.e - min a.e b.e).toNat : ℤ) : ℚ) / ((1 : ℤ) : ℚ) *
        2 ^ (min a.e b.e) = a.toRat + b.toRat := by
    unfold F32.toRat
    push_cast
    rw [← hpa, ← hpb]
    ring
  have herr := roundFracE_err
    (a.m * 2 ^ (a.e - min a.e b.e).toNat + b.m * 2 ^ (b.e - min a.e b.e).toNat)
    1 (min a.e b.e) (by norm_num) (by rw [hval]; exact h)
  rw [hval] at herr
  unfold F32.fadd
  exact herr

theorem f32ofInt_toRat_err (z : ℤ) (h : (2 : ℚ) ^ (-126 : ℤ) ≤ |(z : ℚ)|) :
    |(f32ofInt z).toRat - (z : ℚ)| ≤ 2 ^ (-24 : ℤ) * |(z : ℚ)| := by
  have hval : ((z : ℤ) : ℚ) / ((1 : ℤ) : ℚ) * 2 ^ (0 : ℤ) = (z : ℚ) := by
    norm_num
  have herr := roundFracE_err z 1 0 (by norm_num) (by rw [hval]; exact h)
  rw [hval] at herr
  unfold f32ofInt
  exact herr

theorem F32.floorToInt_eq_floor (x : F32) : x.floorToInt = ⌊x.toRat⌋ := by
  unfold F32.floorToInt F32.toRat
  by_cases he : 0 ≤ x.e
  · rw [if_pos he]
    rw [show (2 : ℚ) ^ x.e = ((2 ^ x.e.toNat : ℤ) : ℚ) by
      push_cast
      rw [← zpow_natCast (2 : ℚ) x.e.toNat, Int.toNat_of_nonneg he]]
    rw [← Int.cast_mul, Int.floor_intCast]
  · rw [if_neg he]
    have hD : (0 : ℤ) < 2 ^ (-x.e).toNat := by positivity
    rw [Int.fdiv_eq_ediv _ (le_of_lt hD)]
    have hval : (x.m : ℚ) * 2 ^ x.e = (x.m : ℚ) / ((2 ^ (-x.e).toNat : ℤ) : ℚ) := by
      rw [div_eq_mul_inv]
      congr 1
      push_cast
      rw [← zpow_natCast (2 : ℚ) (-x.e).toNat, Int.toNat_of_nonneg (by omega), ← zpow_neg]
      congr 1
      omega
    rw [hval]
    set D : ℤ := 2 ^ (-x.e).toNat with hDdef
    have hdm : D * (x.m / D) + x.m % D = x.m := Int.ediv_add_emod x.m D
    have hr0 : 0 ≤ x.m % D := Int.emod_nonneg x.m (by omega)
    have hrD : x.m % D < D := Int.emod_lt_of_pos x.m hD
    have hD0 : (0 : ℚ) < (D : ℚ) := by exact_mod_cast hD
    have hdmq : (D : ℚ) * ((x.m / D : ℤ) : ℚ) + ((x.m % D : ℤ) : ℚ) = (x.m : ℚ) := by
      exact_mod_cast congrArg (Int.cast : ℤ → ℚ) hdm
    have hr0q : (0 : ℚ) ≤ ((x.m % D : ℤ) : ℚ) := by exact_mod_cast hr0
    have hrDq : ((x.m % D : ℤ) : ℚ) < (D : ℚ) := by exact_mod_cast hrD
    symm
    rw [Int.floor_eq_iff]
    constructor
    · rw [le_div_iff hD0]
      linarith
    · rw [div_lt_iff hD0]
      linarith

theorem F32.toRat_mk (m e : ℤ) : (⟨m, e⟩ : F32).toRat = (m : ℚ) * 2 ^ e := rfl

theorem processVertexFetchEmission_of_needed (attrs : FetchAttributes) (used : ℕ)
    (hneed : getVertexFormatNeededWords attrs.data_format used ≠ 0) :
    processVertexFetchEmission attrs used =
      ⟨false, true, true, decide (attrs.stride ≠ 0),
        maskIndices (getVertexFormatNeededWords attrs.data_format used),
        (formatConvertAndNorm attrs.data_format attrs.is_signed attrs.is_integer
          attrs.signed_rf_mode
          ((maskIndices (used &&& (2 ^ getVertexFormatComponentCount attrs.data_format - 1))).map
            (packedWidthAt attrs.data_format))
          (maskCount (used &&& (2 ^ getVertexFormatComponentCount attrs.data_format - 1)))).1,
        (formatConvertAndNorm attrs.data_format attrs.is_signed attrs.is_integer
          attrs.signed_rf_mode
          ((maskIndices (used &&& (2 ^ getVertexFormatComponentCount attrs.data_format - 1))).map
            (packedWidthAt attrs.data_format))
          (maskCount (used &&& (2 ^ getVertexFormatComponentCount attrs.data_format - 1)))).2,
        decide (attrs.exp_adjust ≠ 0),
        maskCount ((used &&& 15) &&& (15 ^^^ (2 ^ getVertexFormatComponentCount attrs.data_format - 1)))⟩ := by
  simp only [processVertexFetchEmission]
  rw [if_neg hneed]

/-! ## Claims -/

/-- C1: decoding a vertex fetch of packed format `k_2_10_10_10` with
`is_signed = false` and `is_integer = false`, where the loaded word has
all four bit fields at their maximum representable integers
(1023, 1023, 1023, 3 - the word `0xFFFFFFFF`), yields exactly the float
vector (1.0, 1.0, 1.0, 1.0): each extracted field is multiplied by the
float32 reciprocal of its own field maximum, and both roundings cancel
exactly at the maximum field value. -/
theorem c1_packed_2_10_10_10_unsigned_max_decodes_to_ones :
    (storedComponents
        ⟨.k_2_10_10_10, false, false, .kZeroClampMinusOne, 4, 0, false, 0⟩
        0b1111 (fun _ => 0xFFFFFFFF)).map F32.toRat = [1, 1, 1, 1] := by
  have h : storedComponents
      ⟨.k_2_10_10_10, false, false, .kZeroClampMinusOne, 4, 0, false, 0⟩
      0b1111 (fun _ => 0xFFFFFFFF) =
      [⟨2 ^ 23, -23⟩, ⟨2 ^ 23, -23⟩, ⟨2 ^ 23, -23⟩, ⟨2 ^ 23, -23⟩] := by decide
  rw [h]
  simp only [List.map_cons, List.map_nil, F32.toRat_mk]
  norm_num

/-- C3 (counterexample to the scalar-broadcast claim): for a `k_8_8_8_8`
fetch with all four components used, every extracted width is 8, yet the
emitted normalization multiply is an `OpFMul` against a four-component
composite constant, not a scalar-broadcast `OpVectorTimesScalar`:
`packed_scales_same` (line 404) accumulates `width != widths[0]`, which
is false at the first used component, so the flag is always false and the
`OpVectorTimesScalar` branch is dead code. -/
theorem c3_equal_widths_still_use_composite_constant :
    packedScalesSame [8, 8, 8, 8] = false ∧
    (processVertexFetchEmission
        ⟨.k_8_8_8_8, false, false, .kZeroClampMinusOne, 4, 0, false, 0⟩
        0b1111).normOps =
      [.mulComposite (List.replicate 4 (packedScale false .kZeroClampMinusOne 8))] :=
  ⟨by decide, by decide⟩

/-- C7: when the requested component mask needs no raw storage word under
the declared format, the translator reads no fetch constant, computes no
address, consumes no index operand, loads nothing from shared memory,
emits no conversion or normalization, and only calls `StoreResult` with
the `spv::NoResult` sentinel. -/
theorem c7_empty_needed_words_skips_everything (attrs : FetchAttributes) (used : ℕ)
    (h : getVertexFormatNeededWords attrs.data_format used = 0) :
    processVertexFetchEmission attrs used =
      ⟨true, false, false, false, [], none, [], false, 0⟩ := by
  simp only [processVertexFetchEmission]
  rw [if_pos h]

theorem c7_empty_needed_words_skips_everything_witness :
    getVertexFormatNeededWords VertexFormat.k_16_16 0b1100 = 0 ∧
    processVertexFetchEmission
        ⟨.k_16_16, true, false, .kNoZero, 4, 0, false, 0⟩ 0b1100 =
      ⟨true, false, false, false, [], none, [], false, 0⟩ :=
  ⟨by decide,
    c7_empty_needed_words_skips_everything
      ⟨.k_16_16, true, false, .kNoZero, 4, 0, false, 0⟩ 0b1100 (by decide)⟩

/-- C8: the translator's `DescriptorSet` enumeration declares exactly 8
resource-binding groups at fixed slot indices in update-frequency order:
fetch constants 0, vertex float constants 1, pixel float constants 2,
pixel textures 3, vertex textures 4, system constants 5, bool/loop
constants 6, shared memory + EDRAM 7; the slot assignment is injective
and `kDescriptorSetCount` is 8. -/
theorem c8_descriptor_set_slots :
    DescriptorSet.index .kDescriptorSetFetchConstants = 0 ∧
    DescriptorSet.index .kDescriptorSetFloatConstantsVertex = 1 ∧
    DescriptorSet.index .kDescriptorSetFloatConstantsPixel = 2 ∧
    DescriptorSet.index .kDescriptorSetTexturesPixel = 3 ∧
    DescriptorSet.index .kDescriptorSetTexturesVertex = 4 ∧
    DescriptorSet.index .kDescriptorSetSystemConstants = 5 ∧
    DescriptorSet.index .kDescriptorSetBoolLoopConstants = 6 ∧
    DescriptorSet.index .kDescriptorSetSharedMemoryAndEdram = 7 ∧
    kDescriptorSetCount = 8 ∧
    Function.Injective DescriptorSet.index := by
  refine ⟨rfl, rfl, rfl, rfl, rfl, rfl, rfl, rfl, rfl, ?_⟩
  decide

/-- C10: in every packed format, component X sits at bit offset 0 of word
0, and components sharing a word occupy disjoint bit fields at strictly
increasing offsets; the tables are: `k_8_8_8_8` offsets 0/8/16/24 width 8;
`k_2_10_10_10` X, Y, Z at 0/10/20 width 10, W at 30 width 2; `k_10_11_11`
X, Y at 0/11 width 11, Z at 22 width 10; `k_11_11_10` X at 0 width 10,
Y, Z at 10/21 width 11; `k_16_16_16_16` X, Y at 0/16 of word 0 and Z, W
at 0/16 of word 1. -/
theorem c10_packed_bit_field_layout :
    (∀ f : VertexFormat, ∀ i j : Fin 4, (packedLayout f).isSome = true →
      i.1 < getVertexFormatComponentCount f → j.1 < getVertexFormatComponentCount f →
      i.1 < j.1 → packedWordAt f i.1 = packedWordAt f j.1 →
      packedOffsetAt f i.1 + packedWidthAt f i.1 ≤ packedOffsetAt f j.1) ∧
    (∀ f : VertexFormat, (packedLayout f).isSome = true →
      packedOffsetAt f 0 = 0 ∧ packedWordAt f 0 = 0) ∧
    (∀ i : Fin 4, packedWidthAt .k_8_8_8_8 i.1 = 8 ∧
      packedOffsetAt .k_8_8_8_8 i.1 = 8 * i.1 ∧ packedWordAt .k_8_8_8_8 i.1 = 0) ∧
    (packedWidthAt .k_2_10_10_10 0 = 10 ∧ packedWidthAt .k_2_10_10_10 1 = 10 ∧
      packedWidthAt .k_2_10_10_10 2 = 10 ∧ packedWidthAt .k_2_10_10_10 3 = 2 ∧
      packedOffsetAt .k_2_10_10_10 0 = 0 ∧ packedOffsetAt .k_2_10_10_10 1 = 10 ∧
      packedOffsetAt .k_2_10_10_10 2 = 20 ∧ packedOffsetAt .k_2_10_10_10 3 = 30) ∧
    (packedWidthAt .k_10_11_11 0 = 11 ∧ packedWidthAt .k_10_11_11 1 = 11 ∧
      packedWidthAt .k_10_11_11 2 = 10 ∧ packedOffsetAt .k_10_11_11 0 = 0 ∧
      packedOffsetAt .k_10_11_11 1 = 11 ∧ packedOffsetAt .k_10_11_11 2 = 22) ∧
    (packedWidthAt .k_11_11_10 0 = 10 ∧ packedWidthAt .k_11_11_10 1 = 11 ∧
      packedWidthAt .k_11_11_10 2 = 11 ∧ packedOffsetAt .k_11_11_10 0 = 0 ∧
      packedOffsetAt .k_11_11_10 1 = 10 ∧ packedOffsetAt .k_11_11_10 2 = 21) ∧
    (packedWordAt .k_16_16_16_16 2 = 1 ∧ packedWordAt .k_16_16_16_16 3 = 1 ∧
      packedOffsetAt .k_16_16_16_16 2 = 0 ∧ packedOffsetAt .k_16_16_16_16 3 = 16) := by
  refine ⟨?_, ?_, ?_, ?_, ?_, ?_, ?_⟩ <;> decide

theorem c10_packed_bit_field_layout_witness :
    packedOffsetAt .k_16_16_16_16 2 + packedWidthAt .k_16_16_16_16 2 ≤
      packedOffsetAt .k_16_16_16_16 3 :=
  c10_packed_bit_field_layout.1 .k_16_16_16_16 2 3 (by decide) (by decide) (by decide)
    (by decide) (by decide)

/-- C2: for a vertex fetch of a wide 32-bit integer format (`k_32`,
`k_32_32`, `k_32_32_32_32`) with `is_integer = false`: signed data in
zero-clamp-minus-one mode is converted to float and multiplied by the
constant `1.0f / 2147483647.0f` with no clamp instruction emitted (that
constant rounds to exactly `2 ^ (-31)`, which is why no clamp is needed);
signed data in no-zero mode is multiplied by `1.0f / 2147483647.5f` and
then `0.5f / 2147483647.5f` is added; unsigned data is multiplied by
`1.0f / 4294967295.0f`. -/
theorem c2_wide32_normalization (attrs : FetchAttributes) (used : ℕ)
    (hfmt : attrs.data_format = .k_32 ∨ attrs.data_format = .k_32_32 ∨
      attrs.data_format = .k_32_32_32_32)
    (hint : attrs.is_integer = false)
    (hneed : getVertexFormatNeededWords attrs.data_format used ≠ 0) :
    (attrs.is_signed = true → attrs.signed_rf_mode = .kZeroClampMinusOne →
      (processVertexFetchEmission attrs used).normOps = [.mulVTS constScale32Clamp] ∧
      (processVertexFetchEmission attrs used).hasClamp = false ∧
      constScale32Clamp.toRat = 2 ^ (-31 : ℤ)) ∧
    (attrs.is_signed = true → attrs.signed_rf_mode = .kNoZero →
      (processVertexFetchEmission attrs used).normOps =
        [.mulVTS constScale32NoZero,
          .addConst (List.replicate
            (maskCount (used &&& (2 ^ getVertexFormatComponentCount attrs.data_format - 1)))
            constBias32NoZero)] ∧
      (processVertexFetchEmission attrs used).hasClamp = false) ∧
    (attrs.is_signed = false →
      (processVertexFetchEmission attrs used).normOps = [.mulVTS constScale32Unsigned] ∧
      (processVertexFetchEmission attrs used).hasClamp = false) ∧
    (processVertexFetchEmission attrs used).convert =
      some (if attrs.is_signed then .signedToFloat else .unsignedToFloat) := by
  have hclampC : constScale32Clamp = ⟨2 ^ 23, -54⟩ := by decide
  have hclamp_val : constScale32Clamp.toRat = 2 ^ (-31 : ℤ) := by
    rw [hclampC, F32.toRat_mk]
    norm_num
  rw [processVertexFetchEmission_of_needed attrs used hneed]
  obtain ⟨fmt, sg, it, rf, st, off, ir, ea⟩ := attrs
  simp only at hfmt hint ⊢
  subst hint
  refine ⟨fun hs hm => ?_, fun hs hm => ?_, fun hs => ?_, ?_⟩
  · subst hs
    subst hm
    rcases hfmt with rfl | rfl | rfl <;>
      exact ⟨by simp [formatConvertAndNorm, packedLayout, wide32NormOps],
        by simp [formatConvertAndNorm, packedLayout, wide32NormOps, FetchEmission.hasClamp],
        hclamp_val⟩
  · subst hs
    subst hm
    rcases hfmt with rfl | rfl | rfl <;>
      exact ⟨by simp [formatConvertAndNorm, packedLayout, wide32NormOps],
        by simp [formatConvertAndNorm, packedLayout, wide32NormOps, FetchEmission.hasClamp]⟩
  · subst hs
    rcases hfmt with rfl | rfl | rfl <;>
      exact ⟨by simp [formatConvertAndNorm, packedLayout, wide32NormOps],
        by simp [formatConvertAndNorm, packedLayout, wide32NormOps, FetchEmission.hasClamp]⟩
  · rcases hfmt with rfl | rfl | rfl <;>
      simp [formatConvertAndNorm, packedLayout]

theorem c2_wide32_normalization_witness :
    (processVertexFetchEmission
        ⟨.k_32_32, true, false, .kZeroClampMinusOne, 8, 0, false, 0⟩ 0b11).normOps =
      [.mulVTS constScale32Clamp] ∧
    (processVertexFetchEmission
        ⟨.k_32_32, true, false, .kZeroClampMinusOne, 8, 0, false, 0⟩ 0b11).hasClamp = false ∧
    constScale32Clamp.toRat = 2 ^ (-31 : ℤ) :=
  (c2_wide32_normalization
      ⟨.k_32_32, true, false, .kZeroClampMinusOne, 8, 0, false, 0⟩ 0b11
      (by decide) rfl (by decide)).1 rfl rfl

/-- C4: the element dword address is the base address from the fetch
constant plus `stride` times the index; the index is the first requested
component of operand 0 with `0.5f` added (by a float32 `OpFAdd`) exactly
when the index-rounded attribute is set, then floored and converted to a
signed integer - never round-to-nearest-even.  With stride zero the
address is the base address alone and the index operand contributes
nothing. -/
theorem c4_element_address (w0 stride : ℕ) (rounded : Bool) (index : F32) :
    (stride = 0 → elementDwordAddress w0 stride rounded index = fetchBaseAddress w0) ∧
    (stride ≠ 0 → elementDwordAddress w0 stride rounded index =
      fetchBaseAddress w0 +
        stride * ⌊(if rounded then index.fadd f32half else index).toRat⌋) ∧
    f32half.toRat = 1 / 2 := by
  refine ⟨fun h => ?_, fun h => ?_, ?_⟩
  · simp [elementDwordAddress, h]
  · simp only [elementDwordAddress]
    rw [if_pos h, F32.floorToInt_eq_floor]
    by_cases h1 : 1 < stride
    · rw [if_pos h1]
      ring
    · have hs1 : stride = 1 := by omega
      subst hs1
      rw [if_neg h1]
      push_cast
      ring
  · have h : f32half = ⟨2 ^ 23, -24⟩ := by decide
    rw [h, F32.toRat_mk]
    norm_num

theorem c4_element_address_witness :
    elementDwordAddress 400 0 true (f32ofInt 3) = fetchBaseAddress 400 ∧
    elementDwordAddress 400 2 true (f32ofInt 3) =
      fetchBaseAddress 400 + 2 * ⌊((f32ofInt 3).fadd f32half).toRat⌋ :=
  ⟨(c4_element_address 400 0 true (f32ofInt 3)).1 rfl, by
    have h := (c4_element_address 400 2 true (f32ofInt 3)).2.1 (by decide)
    simpa using h⟩

theorem f32ofInt_neg_one_toRat : (f32ofInt (-1)).toRat = -1 := by
  have h : f32ofInt (-1) = ⟨-(2 ^ 23), -23⟩ := by decide
  rw [h, F32.toRat_mk]
  push_cast
  norm_num

/-- C9: a packed-format fetch with `is_signed`, not `is_integer`, in
zero-clamp-minus-one mode is clamped per component by an explicit
`FMax(value, -1.0)` after the scale multiply, so both field codes
`-(2^(w-1))` and `-(2^(w-1)-1)` decode to exactly -1.0 - unlike the
32-bit wide-format path, which emits no clamp instruction in the same
mode. -/
theorem c9_packed_signed_clamp_vs_wide32 (attrs : FetchAttributes) (used : ℕ)
    (hs : attrs.is_signed = true) (hint : attrs.is_integer = false)
    (hrf : attrs.signed_rf_mode = .kZeroClampMinusOne)
    (hneed : getVertexFormatNeededWords attrs.data_format used ≠ 0) :
    ((packedLayout attrs.data_format).isSome = true →
      (processVertexFetchEmission attrs used).hasClamp = true ∧
      (processVertexFetchEmission attrs used).normOps.getLast? =
        some (.maxConst (List.replicate
          (maskCount (used &&& (2 ^ getVertexFormatComponentCount attrs.data_format - 1)))
          (f32ofInt (-1)))) ∧
      (∀ i : Fin 4, i.1 < getVertexFormatComponentCount attrs.data_format →
        (decodePackedComponent true false .kZeroClampMinusOne
          (packedWidthAt attrs.data_format i.1)
          (-((2 : ℤ) ^ (packedWidthAt attrs.data_format i.1 - 1)))).toRat = -1 ∧
        (decodePackedComponent true false .kZeroClampMinusOne
          (packedWidthAt attrs.data_format i.1)
          (-((2 : ℤ) ^ (packedWidthAt attrs.data_format i.1 - 1) - 1))).toRat = -1)) ∧
    ((attrs.data_format = .k_32 ∨ attrs.data_format = .k_32_32 ∨
        attrs.data_format = .k_32_32_32_32) →
      (processVertexFetchEmission attrs used).hasClamp = false) := by
  have hFall : ∀ f : VertexFormat, (packedLayout f).isSome = true →
      ∀ i : Fin 4, i.1 < getVertexFormatComponentCount f →
      decodePackedComponent true false .kZeroClampMinusOne (packedWidthAt f i.1)
        (-((2 : ℤ) ^ (packedWidthAt f i.1 - 1))) = f32ofInt (-1) ∧
      decodePackedComponent true false .kZeroClampMinusOne (packedWidthAt f i.1)
        (-((2 : ℤ) ^ (packedWidthAt f i.1 - 1) - 1)) = f32ofInt (-1) := by decide
  constructor
  · intro hL
    obtain ⟨L, hLsome⟩ := Option.isSome_iff_exists.mp hL
    have hnorm : (processVertexFetchEmission attrs used).normOps =
        packedNormOps attrs.is_signed attrs.is_integer attrs.signed_rf_mode
          ((maskIndices (used &&&
            (2 ^ getVertexFormatComponentCount attrs.data_format - 1))).map
            (packedWidthAt attrs.data_format)) := by
      rw [processVertexFetchEmission_of_needed attrs used hneed]
      simp [formatConvertAndNorm, hLsome]
    rw [hs, hint, hrf] at hnorm
    simp only [packedNormOps, Bool.false_eq_true, if_false, if_true] at hnorm
    refine ⟨?_, ?_, ?_⟩
    · simp [FetchEmission.hasClamp, hnorm]
    · rw [hnorm]
      simp [maskCount]
    · intro i hi
      obtain ⟨h1, h2⟩ := hFall attrs.data_format hL i hi
      exact ⟨by rw [h1, f32ofInt_neg_one_toRat], by rw [h2, f32ofInt_neg_one_toRat]⟩
  · intro hfmt
    rw [processVertexFetchEmission_of_needed attrs used hneed]
    rcases hfmt with h | h | h <;>
      simp [formatConvertAndNorm, h, packedLayout, wide32NormOps,
        FetchEmission.hasClamp, hs, hint, hrf]

theorem c9_packed_signed_clamp_vs_wide32_witness :
    (processVertexFetchEmission
        ⟨.k_2_10_10_10, true, false, .kZeroClampMinusOne, 4, 0, false, 0⟩ 15).hasClamp =
      true ∧
    (decodePackedComponent true false .kZeroClampMinusOne
        (packedWidthAt .k_2_10_10_10 3)
        (-((2 : ℤ) ^ (packedWidthAt .k_2_10_10_10 3 - 1)))).toRat = -1 := by
  have h := (c9_packed_signed_clamp_vs_wide32
      ⟨.k_2_10_10_10, true, false, .kZeroClampMinusOne, 4, 0, false, 0⟩ 15
      rfl rfl rfl (by decide)).1 (by decide)
  exact ⟨h.1, (h.2.2 3 (by decide)).1⟩

theorem map_ite_filter_pos {α : Type} (cc : ℕ) (N : ℕ → α) (z : α) (l : List ℕ) :
    (l.filter fun i => decide (i < cc)).map (fun i => if i < cc then N i else z) =
      (l.filter fun i => decide (i < cc)).map N := by
  apply List.map_congr_left
  intro i hi
  have h := List.of_mem_filter hi
  rw [decide_eq_true_eq] at h
  rw [if_pos h]

theorem map_ite_filter_neg {α : Type} (cc : ℕ) (N : ℕ → α) (z : α) (l : List ℕ) :
    (l.filter fun i => !decide (i < cc)).map (fun i => if i < cc then N i else z) =
      List.replicate ((l.filter fun i => !decide (i < cc)).length) z := by
  rw [List.eq_replicate]
  refine ⟨by simp, ?_⟩
  intro b hb
  obtain ⟨i, hi, rfl⟩ := List.mem_map.mp hb
  have h := List.of_mem_filter hi
  simp only [Bool.not_eq_true', decide_eq_false_iff_not] at h
  rw [if_neg h]

/-- C6: when the requested components include at least one component
native to the format and at least one beyond the format's native count,
the stored vector is, in requested component order, the decoded native
components unchanged followed by exact 0.0 for each requested missing
component. -/
theorem c6_missing_components_zero_padded (attrs : FetchAttributes) (used : ℕ)
    (words : ℕ → ℕ) (hused : used < 16)
    (hnative : used &&& (2 ^ getVertexFormatComponentCount attrs.data_format - 1) ≠ 0)
    (hmissing : (used &&& 15) &&&
      (15 ^^^ (2 ^ getVertexFormatComponentCount attrs.data_format - 1)) ≠ 0) :
    storedComponents attrs used words =
      (maskIndices used).map fun i =>
        if i < getVertexFormatComponentCount attrs.data_format then
          applyExpBias attrs (nativeComponentValue attrs words i)
        else f32zero := by
  have hiff : ∀ f : VertexFormat, ∀ u : Fin 16,
      getVertexFormatNeededWords f u.1 = 0 ↔
        u.1 &&& (2 ^ getVertexFormatComponentCount f - 1) = 0 := by decide
  have hneed : getVertexFormatNeededWords attrs.data_format used ≠ 0 := fun hz =>
    hnative ((hiff attrs.data_format ⟨used, hused⟩).mp hz)
  have hsplit1 : ∀ f : VertexFormat, ∀ u : Fin 16,
      maskIndices (u.1 &&& (2 ^ getVertexFormatComponentCount f - 1)) =
        (maskIndices u.1).filter fun i =>
          decide (i < getVertexFormatComponentCount f) := by decide
  have hsplit2 : ∀ f : VertexFormat, ∀ u : Fin 16,
      maskIndices ((u.1 &&& 15) &&& (15 ^^^ (2 ^ getVertexFormatComponentCount f - 1))) =
        (maskIndices u.1).filter fun i =>
          !decide (i < getVertexFormatComponentCount f) := by decide
  have hsplit3 : ∀ f : VertexFormat, ∀ u : Fin 16,
      maskIndices u.1 =
        ((maskIndices u.1).filter fun i =>
          decide (i < getVertexFormatComponentCount f)) ++
        ((maskIndices u.1).filter fun i =>
          !decide (i < getVertexFormatComponentCount f)) := by decide
  simp only [storedComponents]
  rw [if_neg hneed]
  conv_rhs => rw [hsplit3 attrs.data_format ⟨used, hused⟩]
  rw [List.map_append]
  congr 1
  · rw [hsplit1 attrs.data_format ⟨used, hused⟩]
    exact (map_ite_filter_pos _ _ _ _).symm
  · simp only [maskCount]
    rw [hsplit2 attrs.data_format ⟨used, hused⟩]
    exact (map_ite_filter_neg _ _ _ _).symm

theorem c6_missing_components_zero_padded_witness :
    storedComponents ⟨.k_16_16, true, false, .kNoZero, 4, 0, false, 0⟩ 0b1011
        (fun _ => 0x0003FFFB) =
      (maskIndices 0b1011).map fun i =>
        if i < getVertexFormatComponentCount VertexFormat.k_16_16 then
          applyExpBias ⟨.k_16_16, true, false, .kNoZero, 4, 0, false, 0⟩
            (nativeComponentValue ⟨.k_16_16, true, false, .kNoZero, 4, 0, false, 0⟩
              (fun _ => 0x0003FFFB) i)
        else f32zero :=
  c6_missing_components_zero_padded
    ⟨.k_16_16, true, false, .kNoZero, 4, 0, false, 0⟩ 0b1011 (fun _ => 0x0003FFFB)
    (by decide) (by decide) (by decide)

theorem extractSigned16_bounds (w off : ℕ) :
    -(2 ^ 15) ≤ extractSigned w off 16 ∧ extractSigned w off 16 < 2 ^ 15 := by
  have hult : (w >>> off) &&& 65535 ≤ 65535 := Nat.and_le_right
  have hval : extractSigned w off 16 =
      if 32768 ≤ (w >>> off) &&& 65535 then (((w >>> off) &&& 65535 : ℕ) : ℤ) - 65536
      else (((w >>> off) &&& 65535 : ℕ) : ℤ) := by
    have h1 : extractSigned w off 16 =
        if 2 ^ 15 ≤ (w >>> off) &&& (2 ^ 16 - 1) then
          (((w >>> off) &&& (2 ^ 16 - 1) : ℕ) : ℤ) - 2 ^ 16
        else (((w >>> off) &&& (2 ^ 16 - 1) : ℕ) : ℤ) := rfl
    rw [h1]
    simp only [show (2 : ℕ) ^ 15 = 32768 from by norm_num,
      show (2 : ℕ) ^ 16 - 1 = 65535 from by norm_num,
      show ((2 : ℤ) ^ 16) = 65536 from by norm_num]
  rw [hval]
  rw [show (-(2 ^ 15) : ℤ) = -32768 from by norm_num,
    show ((2 : ℤ) ^ 15) = 32768 from by norm_num]
  by_cases h : 32768 ≤ (w >>> off) &&& 65535
  · rw [if_pos h]
    omega
  · rw [if_neg h]
    omega

/-- Core inequality chain of the no-zero bias argument, over plain
rationals: if `x0` approximates an integer-valued `nq` with
`1 ≤ |nq| ≤ 2 ^ 15`, `x1` approximates `x0` times the scale
`65537 / 2 ^ 31`, each within relative error `2 ^ (-24)`, then the biased
sum `x1 + 65537 / 2 ^ 32` stays in the normal float32 range, and any
rounding of it within the same relative error is nonzero. -/
theorem noZeroChainCore (nq x0 x1 : ℚ)
    (hn1 : 1 ≤ |nq|) (hn2 : |nq| ≤ 2 ^ 15)
    (hA : |x0 - nq| ≤ 1 / 16777216 * |nq|)
    (hB : |x1 - x0 * (65537 / 2 ^ 31)| ≤ 1 / 16777216 * |x0 * (65537 / 2 ^ 31)|) :
    (2 : ℚ) ^ (-126 : ℤ) ≤ |x1 + 65537 / 2 ^ 32| ∧
    ∀ r : ℚ, |r - (x1 + 65537 / 2 ^ 32)| ≤ 1 / 16777216 * |x1 + 65537 / 2 ^ 32| →
      r ≠ 0 := by
  have h126 : (2 : ℚ) ^ (-126 : ℤ) = 1 / 2 ^ 126 := by norm_num
  rcases abs_cases nq with ⟨he, hge⟩ | ⟨he, hlt⟩
  · -- nq ≥ 1
    rw [he] at hn1 hn2 hA
    obtain ⟨hA1, hA2⟩ := abs_le.mp hA
    have hx0lb : (1 - 1 / 16777216) * nq ≤ x0 := by linarith
    have hx0lb1 : (1 - 1 / 16777216) ≤ x0 := by linarith
    have hx0pos : 0 < x0 := by linarith
    have hx0S : (1 - 1 / 16777216) * (65537 / 2 ^ 31) ≤ x0 * (65537 / 2 ^ 31) := by
      linarith
    have hx0Spos : 0 < x0 * (65537 / 2 ^ 31) := by linarith
    rw [abs_of_pos hx0Spos] at hB
    obtain ⟨hB1, hB2⟩ := abs_le.mp hB
    have hx1lb : (1 - 1 / 16777216) * (x0 * (65537 / 2 ^ 31)) ≤ x1 := by linarith
    have hx1lb2 : (1 - 1 / 16777216) * ((1 - 1 / 16777216) * (65537 / 2 ^ 31)) ≤ x1 := by
      linarith
    have hsumpos : 0 < x1 + 65537 / 2 ^ 32 := by linarith
    have hsumlb : (1 : ℚ) / 2 ^ 126 ≤ x1 + 65537 / 2 ^ 32 := by linarith
    refine ⟨by rw [h126, abs_of_pos hsumpos]; exact hsumlb, ?_⟩
    intro r hC h0
    rw [abs_of_pos hsumpos] at hC
    obtain ⟨hC1, hC2⟩ := abs_le.mp hC
    rw [h0] at hC1
    linarith
  · -- nq ≤ -1
    rw [he] at hn1 hn2 hA
    obtain ⟨hA1, hA2⟩ := abs_le.mp hA
    have hx0ub : x0 ≤ (1 - 1 / 16777216) * nq := by linarith
    have hx0ub1 : x0 ≤ -(1 - 1 / 16777216) := by linarith
    have hx0neg : x0 < 0 := by linarith
    have hx0S : x0 * (65537 / 2 ^ 31) ≤ -(1 - 1 / 16777216) * (65537 / 2 ^ 31) := by
      linarith
    have hx0Sneg : x0 * (65537 / 2 ^ 31) < 0 := by linarith
    rw [abs_of_neg hx0Sneg] at hB
    obtain ⟨hB1, hB2⟩ := abs_le.mp hB
    have hx1ub : x1 ≤ (1 - 1 / 16777216) * (x0 * (65537 / 2 ^ 31)) := by linarith
    have hx1ub2 : x1 ≤ (1 - 1 / 16777216) * (-(1 - 1 / 16777216) * (65537 / 2 ^ 31)) := by
      linarith
    have hsumneg : x1 + 65537 / 2 ^ 32 < 0 := by linarith
    have hsumub : x1 + 65537 / 2 ^ 32 ≤ -(1 / 2 ^ 126) := by linarith
    refine ⟨by rw [h126, abs_of_neg hsumneg]; linarith, ?_⟩
    intro r hC h0
    rw [abs_of_neg hsumneg] at hC
    obtain ⟨hC1, hC2⟩ := abs_le.mp hC
    rw [h0] at hC2
    linarith

/-- Decoding one signed 16-bit field in the no-zero repeating-fraction
mode never produces exactly 0.0: the scale multiply keeps every nonzero
field away from `-0.5 * scale`, and the additive bias `0.5 * scale`
pushes the zero field to `0.5 * scale`. -/
theorem decode16NoZero_ne_zero (n : ℤ) (hlo : -(2 ^ 15) ≤ n) (hhi : n < 2 ^ 15) :
    (decodePackedComponent true false .kNoZero 16 n).toRat ≠ 0 := by
  have hdef : decodePackedComponent true false .kNoZero 16 n =
      ((f32ofInt n).fmul (packedScale true .kNoZero 16)).fadd
        (f32half.fmul (packedScale true .kNoZero 16)) := rfl
  rw [hdef]
  by_cases hn0 : n = 0
  · subst hn0
    have hval : ((f32ofInt 0).fmul (packedScale true .kNoZero 16)).fadd
        (f32half.fmul (packedScale true .kNoZero 16)) = ⟨8388736, -39⟩ := by decide
    rw [hval, F32.toRat_mk]
    norm_num
  · have hS : packedScale true .kNoZero 16 = ⟨8388736, -38⟩ := by decide
    have hSval : (packedScale true .kNoZero 16).toRat = 65537 / 2 ^ 31 := by
      rw [hS, F32.toRat_mk]
      norm_num
    have hB : f32half.fmul (packedScale true .kNoZero 16) = ⟨8388736, -39⟩ := by decide
    have hBval : (f32half.fmul (packedScale true .kNoZero 16)).toRat = 65537 / 2 ^ 32 := by
      rw [hB, F32.toRat_mk]
      norm_num
    have hu : (2 : ℚ) ^ (-24 : ℤ) = 1 / 16777216 := by norm_num
    have h126 : (2 : ℚ) ^ (-126 : ℤ) = 1 / 2 ^ 126 := by norm_num
    have hn1Q : (1 : ℚ) ≤ |(n : ℚ)| := by
      have h1 : (1 : ℤ) ≤ |n| := Int.one_le_abs hn0
      calc (1 : ℚ) ≤ ((|n| : ℤ) : ℚ) := by exact_mod_cast h1
      _ = |(n : ℚ)| := by push_cast; rfl
    have hn2Q : |(n : ℚ)| ≤ 2 ^ 15 := by
      have h1 : |n| ≤ 2 ^ 15 := abs_le.mpr ⟨hlo, le_of_lt hhi⟩
      calc |(n : ℚ)| = ((|n| : ℤ) : ℚ) := by push_cast; rfl
      _ ≤ ((2 ^ 15 : ℤ) : ℚ) := by exact_mod_cast h1
      _ = 2 ^ 15 := by norm_num
    -- step 1: the integer-to-float conversion error
    have herrA := f32ofInt_toRat_err n (by rw [h126]; linarith)
    rw [hu] at herrA
    -- a lower bound on the magnitude of the converted value
    have habs0a := abs_sub_abs_le_abs_sub ((n : ℚ)) ((f32ofInt n).toRat)
    rw [abs_sub_comm] at habs0a
    have hx0abs : 1 - 1 / 16777216 ≤ |(f32ofInt n).toRat| := by linarith
    -- step 2: the scale multiply error
    have herrB := F32.fmul_toRat_err (f32ofInt n) (packedScale true .kNoZero 16) (by
      rw [hSval, abs_mul, abs_of_pos (by norm_num : (0 : ℚ) < 65537 / 2 ^ 31), h126]
      linarith)
    rw [hSval, hu] at herrB
    -- the core chain
    have hcore := noZeroChainCore ((n : ℚ)) ((f32ofInt n).toRat)
      (((f32ofInt n).fmul (packedScale true .kNoZero 16)).toRat) hn1Q hn2Q herrA herrB
    -- step 3: the bias addition error
    have herrC := F32.fadd_toRat_err
      ((f32ofInt n).fmul (packedScale true .kNoZero 16))
      (f32half.fmul (packedScale true .kNoZero 16)) (by rw [hBval]; exact hcore.1)
    rw [hBval, hu] at herrC
    exact hcore.2 _ herrC

theorem c5_16_16_signed_no_zero_never_zero (words : ℕ → ℕ) :
    ∀ v ∈ storedComponents ⟨.k_16_16, true, false, .kNoZero, 4, 0, false, 0⟩
      0b11 words, v.toRat ≠ 0 := by
  have hsc : storedComponents ⟨.k_16_16, true, false, .kNoZero, 4, 0, false, 0⟩
      0b11 words =
      [decodePackedComponent true false .kNoZero 16 (extractSigned (words 0) 0 16),
        decodePackedComponent true false .kNoZero 16 (extractSigned (words 0) 16 16)] := rfl
  rw [hsc]
  intro v hv
  rcases List.mem_cons.mp hv with rfl | hv2
  · obtain ⟨h1, h2⟩ := extractSigned16_bounds (words 0) 0
    exact decode16NoZero_ne_zero _ h1 h2
  rcases List.mem_cons.mp hv2 with rfl | hv3
  · obtain ⟨h1, h2⟩ := extractSigned16_bounds (words 0) 16
    exact decode16NoZero_ne_zero _ h1 h2
  · exact absurd hv3 (List.not_mem_nil v)

theorem c5_16_16_signed_no_zero_never_zero_witness :
    (⟨-9437328, -36⟩ : F32).toRat ≠ 0 :=
  c5_16_16_signed_no_zero_never_zero (fun _ => 0x0003FFFB) ⟨-9437328, -36⟩
    (by decide)

example : f32ofInt 1 = ⟨2 ^ 23, -23⟩ := by decide
example : F32.fdiv (f32ofInt 1) (f32ofInt 1023) = ⟨8396808, -33⟩ := by decide
example : F32.fmul (f32ofInt 1023) (F32.fdiv (f32ofInt 1) (f32ofInt 1023)) =
    ⟨2 ^ 23, -23⟩ := by decide
example : f32ofInt 2147483647 = ⟨2 ^ 23, 8⟩ := by decide
example : F32.fdiv (f32ofInt 1) (f32ofInt 2147483647) = ⟨2 ^ 23, -54⟩ := by decide
example : F32.fadd (f32ofInt 3) ⟨2 ^ 23, -24⟩ = ⟨14680064, -22⟩ := by decide
example : F32.floorToInt ⟨14680064, -22⟩ = 3 := by decide
example : F32.fmax ⟨-2 ^ 23, -22⟩ ⟨-2 ^ 23, -23⟩ = ⟨-2 ^ 23, -23⟩ := by decide

end XeniaSpirvFetch
